import Mathlib

/-!
Verification of the order-parameter pipeline of `OP.py` (hpc_tools).

The two core functions, `compute_Q_tensor` and `compute_order_parameters`,
are embedded below over exact real arithmetic.  Per Python/numpy runtime
semantics a call either returns a value or raises an exception, so the
top-level functions return `Except PipelineError _`; `PipelineError` lists
the exception kinds discussed in the documentation (numpy's `LinAlgError`
raised by `np.linalg.eigh`, plus the `DegenerateDirectorError` /
`EmptyFrameError` classes the documentation describes) so that statements
about which errors are (or are not) raised are expressible.  The code of
`OP.py` itself contains no `raise` and no try/except: the only error
source is the eigensolver, which is a parameter (`EighFn`) of the
embedding of `compute_order_parameters`.

Conventions of the exact model: IEEE division by zero (which yields
inf/NaN in numpy, with a warning but no exception) is mapped to Lean's
total division by zero, which yields 0; wherever a claim depends on this
the divergence is noted at the claim.  Input shape (n_frames, n_molecules,
3) is enforced by `mdtraj.utils.ensure_type` in the source; here the inner
dimension 3 is carried by the type `Vec3`, so the shape check always
passes and `compute_Q_tensor` is total.
-/

noncomputable section

namespace OP

/-- One molecular director: a 3-component real vector (one row of the
`(n_frames, n_molecules, 3)` input array). -/
abbrev Vec3 : Type := Fin 3 → ℝ

/-- A 3×3 real matrix (one frame's Q tensor, or an eigenvector matrix). -/
abbrev Mat3 : Type := Fin 3 → Fin 3 → ℝ

/-- Euclidean norm of a director, `np.linalg.norm(directors, axis=1)`
applied to one row (OP.py line 15). -/
def vnorm (v : Vec3) : ℝ := Real.sqrt (v 0 ^ 2 + v 1 ^ 2 + v 2 ^ 2)

/-- `directors / np.linalg.norm(directors, axis=1)[:, np.newaxis]` applied
to one row (OP.py line 15): componentwise division by the Euclidean norm.
numpy emits NaN on a zero norm; the exact model yields the zero vector. -/
def normalize (v : Vec3) : Vec3 := fun a => v a / vnorm v

/-- Kronecker delta, the `- 1.0` terms on the diagonal of the Q update. -/
def kron (a b : Fin 3) : ℝ := if a = b then 1 else 0

/-- The nine per-vector accumulator updates of OP.py lines 17–25:
entry (a,b) receives `3 * vector[a] * vector[b]`, minus 1 on the
diagonal. -/
def qContrib (u : Vec3) : Mat3 :=
  ![![3 * u 0 * u 0 - 1, 3 * u 0 * u 1,     3 * u 0 * u 2],
    ![3 * u 1 * u 0,     3 * u 1 * u 1 - 1, 3 * u 1 * u 2],
    ![3 * u 2 * u 0,     3 * u 2 * u 1,     3 * u 2 * u 2 - 1]]

/-- The inner loop of OP.py lines 16–25 for a single frame: starting from
`np.zeros((3,3))`, add `qContrib` of each normalized director in turn. -/
def qAccum (directors : List Vec3) : Mat3 :=
  directors.foldl (fun acc v => acc + qContrib (normalize v)) 0

/-- One frame's slice of the result of `compute_Q_tensor`: the accumulated
tensor divided entrywise by `2.0 * N` (OP.py line 26), where `N` is the
molecule count `all_directors.shape[1]`. -/
def compute_Q_frame (directors : List Vec3) (N : ℕ) : Mat3 :=
  fun a b => qAccum directors a b / (2 * N)

/-- Exception kinds relevant to the pipeline.  `LinAlgError` is numpy's
eigensolver non-convergence error; `DegenerateDirectorError` and
`EmptyFrameError` are the error classes the documentation describes for
zero-norm directors and empty frames (they appear nowhere in the code). -/
inductive PipelineError : Type
  | LinAlgError : PipelineError
  | DegenerateDirectorError : ℕ → ℕ → PipelineError
  | EmptyFrameError : ℕ → PipelineError
deriving DecidableEq

/-- `compute_Q_tensor` (OP.py lines 6–27).  After `ensure_type` admits the
`(n_frames, n_molecules, 3)` array — always satisfied here by the type of
the input — the function loops over frames accumulating `qContrib` of each
normalized director and finally divides everything by
`2.0 * all_directors.shape[1]`; the molecule count `shape[1]` is that of
the (common) frame length, read off the first frame.  The body contains no
`raise`, so the result is always `Except.ok`. -/
def compute_Q_tensor (all_directors : List (List Vec3)) :
    Except PipelineError (List Mat3) :=
  Except.ok (all_directors.map
    (fun directors => compute_Q_frame directors (all_directors.headD []).length))

/-- `np.dot` of one director row with the global director (OP.py line 54). -/
def vdot (v w : Vec3) : ℝ := v 0 * w 0 + v 1 * w 1 + v 2 * w 2

/-- `np.argmax` on a length-3 array (OP.py line 47): the first index
attaining the maximum value. -/
def npArgmax3 (v : Fin 3 → ℝ) : Fin 3 :=
  if v 0 < v 1 then (if v 1 < v 2 then 2 else 1)
  else (if v 0 < v 2 then 2 else 0)

/-- `np.mean` of a 1-D array: sum divided by length (numpy yields NaN on
an empty array; the exact model yields 0). -/
def npMean (xs : List ℝ) : ℝ := xs.sum / xs.length

/-- The eigensolver `np.linalg.eigh` as a parameter of the embedding: from
a 3×3 matrix it produces the array of eigenvalues and the matrix whose
COLUMNS are eigenvectors, or raises `LinAlgError` on non-convergence. -/
abbrev EighFn : Type := Mat3 → Except PipelineError ((Fin 3 → ℝ) × Mat3)

/-- OP.py lines 47–50: take the eigenvector column at the argmax of the
eigenvalues (`eigenvectors[:, max_index]`) and defensively normalize it. -/
def selectGlobalDirector (eigenvalues : Fin 3 → ℝ) (eigenvectors : Mat3) :
    Vec3 :=
  normalize (fun a => eigenvectors a (npArgmax3 eigenvalues))

/-- OP.py line 54: `cos_thetas = np.dot(all_directors[i], global_director)`
— the raw (not re-normalized) directors dotted with the global director. -/
def cos_thetas (directors : List Vec3) (global_director : Vec3) : List ℝ :=
  directors.map (fun v => vdot v global_director)

/-- The body of the per-frame loop of `compute_order_parameters`
(OP.py lines 44–60): eigen-decompose Q, select and normalize the global
director, and average the four Legendre polynomials of the cosines.
An eigensolver exception propagates out of the frame. -/
def frameOPs (eigh : EighFn) (directors : List Vec3) (Q : Mat3) :
    Except PipelineError (ℝ × ℝ × ℝ × ℝ) :=
  (eigh Q).map (fun r =>
    let global_director := selectGlobalDirector r.1 r.2
    let cts := cos_thetas directors global_director
    (npMean cts,
     npMean (cts.map (fun c => (3 * c ^ 2 - 1) / 2)),
     npMean (cts.map (fun c => (5 * c ^ 3 - 3 * c) / 2)),
     npMean (cts.map (fun c => (35 * c ^ 4 - 30 * c ^ 2 + 3) / 8))))

/-- The frame loop of OP.py lines 44–60 with Python exception semantics:
frames are processed in order and the first exception aborts the whole
loop (there is no try/except in the source). -/
def opLoop (eigh : EighFn) :
    List (List Vec3 × Mat3) → Except PipelineError (List (ℝ × ℝ × ℝ × ℝ))
  | [] => Except.ok []
  | fq :: rest =>
    match frameOPs eigh fq.1 fq.2 with
    | Except.error e => Except.error e
    | Except.ok p =>
      match opLoop eigh rest with
      | Except.error e => Except.error e
      | Except.ok ps => Except.ok (p :: ps)

/-- `compute_order_parameters` (OP.py lines 29–62), parameterized by the
eigensolver.  The source returns four parallel arrays `P1 P2 P3 P4`
indexed by frame; the embedding returns the equivalent list of per-frame
quadruples `(P1[i], P2[i], P3[i], P4[i])`. -/
def compute_order_parameters (eigh : EighFn) (all_directors : List (List Vec3))
    (Q_ab : List Mat3) : Except PipelineError (List (ℝ × ℝ × ℝ × ℝ)) :=
  opLoop eigh (all_directors.zip Q_ab)

/-- Matrix–vector product, used to state that a vector is an eigenvector
of a frame's Q tensor. -/
def matVec (M : Mat3) (x : Vec3) : Vec3 :=
  fun a => M a 0 * x 0 + M a 1 * x 1 + M a 2 * x 2

/-- The all-zero 3×3 matrix, used as a concrete tensor input. -/
def zeroMat : Mat3 := fun _ _ => 0

/-- The 3×3 identity matrix, used as a concrete eigenvector matrix (its
columns are the standard basis). -/
def idMat : Mat3 := fun a b => kron a b

/-- A concrete eigensolver model that always succeeds, returning the
all-zero eigenvalue array and the standard basis as eigenvectors. -/
def eighId : EighFn := fun _ => Except.ok (![0, 0, 0], idMat)

/-- A concrete eigensolver model returning the exact eigen-decomposition
of the tensor `diag(-1/2, -1/2, 1)` of a single z-axis molecule:
ascending eigenvalues `(-1/2, -1/2, 1)` and standard-basis eigenvectors
(LAPACK's `syevd`, behind `np.linalg.eigh`, returns ascending order). -/
def eighDiag : EighFn := fun _ => Except.ok (![-(1/2), -(1/2), 1], idMat)

open Classical in
/-- A concrete eigensolver model that raises `LinAlgError` exactly on
tensors whose (2,2) entry is 1 (e.g. the Q tensor of a single z-axis
molecule) and succeeds on every other tensor. -/
def eighTop : EighFn := fun Q =>
  if Q 2 2 = 1 then Except.error PipelineError.LinAlgError
  else Except.ok (![0, 0, 0], idMat)

/-- The Q-tensor entry formula as the specification writes it:
`Q_ab = (1 / (2N)) * Σ_i (3 * u_i[a] * u_i[b] − δ_ab)` with `u_i` the i-th
director divided by its Euclidean norm.  Stated from the spec's words, to
be compared with `compute_Q_frame`, which is embedded from the source. -/
def specQ (directors : List Vec3) (a b : Fin 3) : ℝ :=
  (1 / (2 * directors.length)) *
    ((directors.map
      (fun v => 3 * (v a / vnorm v) * (v b / vnorm v) - kron a b)).sum)

/-! ### Helper lemmas -/

theorem qContrib_apply (u : Vec3) (a b : Fin 3) :
    qContrib u a b = 3 * u a * u b - kron a b := by
  fin_cases a <;> fin_cases b <;> simp [qContrib, kron]

theorem foldl_qContrib_apply (l : List Vec3) (acc : Mat3) (a b : Fin 3) :
    (l.foldl (fun A v => A + qContrib (normalize v)) acc) a b
      = acc a b + ((l.map (fun v => qContrib (normalize v) a b)).sum) := by
  induction l generalizing acc with
  | nil => simp
  | cons v t ih => simp [ih, Pi.add_apply]; ring

theorem qAccum_apply (directors : List Vec3) (a b : Fin 3) :
    qAccum directors a b
      = ((directors.map (fun v => qContrib (normalize v) a b)).sum) := by
  simp [qAccum, foldl_qContrib_apply]

theorem normalize_normSq (v : Vec3) (h : 0 < vnorm v) :
    normalize v 0 ^ 2 + normalize v 1 ^ 2 + normalize v 2 ^ 2 = 1 := by
  have hs : vnorm v ^ 2 = v 0 ^ 2 + v 1 ^ 2 + v 2 ^ 2 := by
    have : (0:ℝ) ≤ v 0 ^ 2 + v 1 ^ 2 + v 2 ^ 2 := by positivity
    simpa [vnorm] using Real.sq_sqrt this
  have hne : vnorm v ≠ 0 := ne_of_gt h
  simp only [normalize, div_pow]
  rw [div_add_div_same, div_add_div_same, ← hs]
  exact div_self (pow_ne_zero 2 hne)

/-! ### C1 -/

/-- C1: for a frame of `N ≥ 1` directors, each of strictly positive norm,
the embedded `compute_Q_tensor` frame slice satisfies the specification's
entry formula `Q_ab = (1/(2N)) * Σ_i (3 u_i[a] u_i[b] − δ_ab)` with `u_i`
the i-th director divided by its Euclidean norm. -/
theorem C1_Q_entry_formula (directors : List Vec3) (a b : Fin 3)
    (hN : 1 ≤ directors.length) (hpos : ∀ v ∈ directors, 0 < vnorm v) :
    compute_Q_frame directors directors.length a b = specQ directors a b := by
  have hmap : directors.map (fun v => qContrib (normalize v) a b)
      = directors.map
        (fun v => 3 * (v a / vnorm v) * (v b / vnorm v) - kron a b) := by
    refine List.map_congr_left (fun v _ => ?_)
    simp [qContrib_apply, normalize]
  rw [compute_Q_frame, qAccum_apply, hmap, specQ]
  ring

/-- C1 witness: concrete single-director frame `[(0,0,1)]`. -/
theorem C1_witness :
    (0:ℝ) < vnorm ![0, 0, 1] ∧
      compute_Q_frame [![(0:ℝ), 0, 1]] ([![(0:ℝ), 0, 1]] : List Vec3).length 0 0
        = specQ [![(0:ℝ), 0, 1]] 0 0 :=
  ⟨by simp [vnorm],
   C1_Q_entry_formula [![0, 0, 1]] 0 0 (by simp)
     (by intro v hv; simp only [List.mem_singleton] at hv; subst hv; simp [vnorm])⟩

/-! ### C2 -/

theorem qAccum_trace (directors : List Vec3)
    (hpos : ∀ v ∈ directors, 0 < vnorm v) :
    qAccum directors 0 0 + qAccum directors 1 1 + qAccum directors 2 2 = 0 := by
  simp only [qAccum_apply]
  induction directors with
  | nil => simp
  | cons v t ih =>
    have hv := hpos v (List.mem_cons_self v t)
    have ht := ih (fun w hw => hpos w (List.mem_cons_of_mem v hw))
    have hd := normalize_normSq v hv
    simp only [List.map_cons, List.sum_cons, qContrib_apply, kron] at ht ⊢
    norm_num at ht ⊢
    nlinarith [ht, hd]

/-- C2: for a frame of `N ≥ 1` directors, each of strictly positive norm,
the tensor returned by `compute_Q_tensor` has exactly zero trace:
`Q_xx + Q_yy + Q_zz = 0`, since each normalized director contributes
`3·|u|² − 3 = 0` to the diagonal sum. -/
theorem C2_trace_zero (directors : List Vec3)
    (hN : 1 ≤ directors.length) (hpos : ∀ v ∈ directors, 0 < vnorm v) :
    compute_Q_frame directors directors.length 0 0
      + compute_Q_frame directors directors.length 1 1
      + compute_Q_frame directors directors.length 2 2 = 0 := by
  simp only [compute_Q_frame]
  rw [div_add_div_same, div_add_div_same, qAccum_trace directors hpos,
    zero_div]

/-- C2 witness: concrete single-director frame `[(0,0,1)]`. -/
theorem C2_witness :
    (0:ℝ) < vnorm ![0, 0, 1] ∧
      compute_Q_frame [![(0:ℝ), 0, 1]] ([![(0:ℝ), 0, 1]] : List Vec3).length 0 0
          + compute_Q_frame [![(0:ℝ), 0, 1]] ([![(0:ℝ), 0, 1]] : List Vec3).length 1 1
          + compute_Q_frame [![(0:ℝ), 0, 1]] ([![(0:ℝ), 0, 1]] : List Vec3).length 2 2
        = 0 :=
  ⟨by simp [vnorm],
   C2_trace_zero [![0, 0, 1]] (by simp)
     (by intro v hv; simp only [List.mem_singleton] at hv; subst hv; simp [vnorm])⟩

/-! ### C3 -/

theorem vnorm_nonneg (v : Vec3) : 0 ≤ vnorm v := Real.sqrt_nonneg _

theorem sumSq_of_vnorm_one (v : Vec3) (h : vnorm v = 1) :
    v 0 ^ 2 + v 1 ^ 2 + v 2 ^ 2 = 1 := by
  have hnn : (0:ℝ) ≤ v 0 ^ 2 + v 1 ^ 2 + v 2 ^ 2 := by positivity
  have := Real.sq_sqrt hnn
  rw [vnorm] at h
  rw [← this, h]
  norm_num

theorem normalize_normSq_le_one (e : Vec3) :
    normalize e 0 ^ 2 + normalize e 1 ^ 2 + normalize e 2 ^ 2 ≤ 1 := by
  rcases eq_or_lt_of_le (vnorm_nonneg e) with h | h
  · simp [normalize, ← h]
  · rw [normalize_normSq e h]

theorem vdot_sq_le (v d : Vec3) :
    (vdot v d) ^ 2
      ≤ (v 0 ^ 2 + v 1 ^ 2 + v 2 ^ 2) * (d 0 ^ 2 + d 1 ^ 2 + d 2 ^ 2) := by
  simp only [vdot]
  nlinarith [sq_nonneg (v 0 * d 1 - v 1 * d 0), sq_nonneg (v 0 * d 2 - v 2 * d 0),
    sq_nonneg (v 1 * d 2 - v 2 * d 1)]

theorem cos_theta_sq_le_one (v e : Vec3)
    (hunit : v 0 ^ 2 + v 1 ^ 2 + v 2 ^ 2 = 1) :
    (vdot v (normalize e)) ^ 2 ≤ 1 := by
  have h1 := vdot_sq_le v (normalize e)
  have h2 := normalize_normSq_le_one e
  have h3 : (0:ℝ) ≤ normalize e 0 ^ 2 + normalize e 1 ^ 2 + normalize e 2 ^ 2 := by
    positivity
  nlinarith [h1, h2, h3]

theorem npMean_bounds (xs : List ℝ) (a b : ℝ) (hne : xs ≠ [])
    (h : ∀ x ∈ xs, a ≤ x ∧ x ≤ b) :
    a ≤ npMean xs ∧ npMean xs ≤ b := by
  have hlen : 0 < (xs.length : ℝ) := by
    exact_mod_cast List.length_pos.mpr hne
  have hub : xs.sum ≤ (xs.length : ℝ) * b := by
    calc xs.sum ≤ xs.length • b :=
          List.sum_le_card_nsmul xs b (fun x hx => (h x hx).2)
      _ = (xs.length : ℝ) * b := by rw [nsmul_eq_mul]
  have hlb : (xs.length : ℝ) * a ≤ xs.sum := by
    calc (xs.length : ℝ) * a = xs.length • a := (nsmul_eq_mul _ _).symm
      _ ≤ xs.sum := List.card_nsmul_le_sum xs a (fun x hx => (h x hx).1)
  constructor
  · rw [npMean, le_div_iff hlen]
    linarith
  · rw [npMean, div_le_iff hlen]
    linarith

theorem legendre_bounds (c : ℝ) (h : c ^ 2 ≤ 1) :
    (-1 ≤ c ∧ c ≤ 1)
      ∧ (-(1/2) ≤ (3 * c ^ 2 - 1) / 2 ∧ (3 * c ^ 2 - 1) / 2 ≤ 1)
      ∧ (-1 ≤ (5 * c ^ 3 - 3 * c) / 2 ∧ (5 * c ^ 3 - 3 * c) / 2 ≤ 1) := by
  have h1 : -1 ≤ c := by nlinarith [sq_nonneg (c + 1)]
  have h2 : c ≤ 1 := by nlinarith [sq_nonneg (c - 1)]
  have q1 : (0:ℝ) ≤ 5 * c ^ 2 - 5 * c + 2 := by nlinarith [sq_nonneg (2 * c - 1)]
  have q2 : (0:ℝ) ≤ 5 * c ^ 2 + 5 * c + 2 := by nlinarith [sq_nonneg (2 * c + 1)]
  refine ⟨⟨h1, h2⟩, ⟨by nlinarith, by nlinarith⟩, ?_, ?_⟩
  · nlinarith [mul_nonneg (by linarith : (0:ℝ) ≤ c + 1) q1]
  · nlinarith [mul_nonneg (by linarith : (0:ℝ) ≤ 1 - c) q2]

/-- C3: for a nonempty frame whose input directors are unit vectors, the
order parameters returned by `compute_order_parameters`'s frame body
satisfy `P1, P3 ∈ [−1, 1]` and `P2 ∈ [−1/2, 1]`, whatever eigensolver
output the decomposition produced. -/
theorem C3_P_bounds (eigh : EighFn) (directors : List Vec3) (Q : Mat3)
    (p1 p2 p3 p4 : ℝ) (hne : directors ≠ [])
    (hunit : ∀ v ∈ directors, vnorm v = 1)
    (hres : frameOPs eigh directors Q = Except.ok (p1, p2, p3, p4)) :
    (-1 ≤ p1 ∧ p1 ≤ 1) ∧ (-(1/2) ≤ p2 ∧ p2 ≤ 1) ∧ (-1 ≤ p3 ∧ p3 ≤ 1) := by
  cases heq : eigh Q with
  | error e => rw [frameOPs, heq] at hres; simp [Except.map] at hres
  | ok r =>
    rw [frameOPs, heq] at hres
    simp only [Except.map, Except.ok.injEq, Prod.mk.injEq] at hres
    obtain ⟨hp1, hp2, hp3, hp4⟩ := hres
    set d := selectGlobalDirector r.1 r.2 with hd
    have hcsq : ∀ x ∈ cos_thetas directors d, x ^ 2 ≤ 1 := by
      intro x hx
      obtain ⟨v, hv, rfl⟩ := List.mem_map.mp hx
      exact cos_theta_sq_le_one v _ (sumSq_of_vnorm_one v (hunit v hv))
    have hctsne : cos_thetas directors d ≠ [] := by
      simp [cos_thetas, hne]
    refine ⟨?_, ?_, ?_⟩
    · rw [← hp1]
      exact npMean_bounds _ _ _ hctsne
        (fun x hx => (legendre_bounds x (hcsq x hx)).1)
    · rw [← hp2]
      refine npMean_bounds _ _ _ (by simp [hctsne]) ?_
      intro y hy
      obtain ⟨x, hx, rfl⟩ := List.mem_map.mp hy
      exact (legendre_bounds x (hcsq x hx)).2.1
    · rw [← hp3]
      refine npMean_bounds _ _ _ (by simp [hctsne]) ?_
      intro y hy
      obtain ⟨x, hx, rfl⟩ := List.mem_map.mp hy
      exact (legendre_bounds x (hcsq x hx)).2.2

theorem selectGlobalDirector_zero_id :
    selectGlobalDirector ![(0:ℝ), 0, 0] idMat = ![1, 0, 0] := by
  have harg : npArgmax3 ![(0:ℝ), 0, 0] = 0 := by simp [npArgmax3]
  rw [selectGlobalDirector, harg]
  funext a
  fin_cases a <;> simp [normalize, idMat, kron, vnorm]

theorem frameOPs_eighId_eval :
    frameOPs eighId [![(0:ℝ), 0, 1]] zeroMat = Except.ok (0, -(1/2), 0, 3/8) := by
  have hcts : cos_thetas [![(0:ℝ), 0, 1]] ![1, 0, 0] = [0] := by
    simp [cos_thetas, vdot]
  simp only [frameOPs, eighId, Except.map]
  rw [selectGlobalDirector_zero_id, hcts]
  simp [npMean]
  norm_num

/-- C3 witness: the single-molecule frame `[(0,0,1)]` with a concrete
successful eigensolver output. -/
theorem C3_witness :
    ([![(0:ℝ), 0, 1]] : List Vec3) ≠ [] ∧ vnorm ![(0:ℝ), 0, 1] = 1 ∧
      ((-1 ≤ (0:ℝ) ∧ (0:ℝ) ≤ 1) ∧ (-(1/2) ≤ (-(1/2) : ℝ) ∧ (-(1/2) : ℝ) ≤ 1)
        ∧ (-1 ≤ (0:ℝ) ∧ (0:ℝ) ≤ 1)) :=
  ⟨by simp, by simp [vnorm],
   C3_P_bounds eighId [![0, 0, 1]] zeroMat 0 (-(1/2)) 0 (3/8) (by simp)
     (by intro v hv; simp only [List.mem_singleton] at hv; subst hv; simp [vnorm])
     frameOPs_eighId_eval⟩

/-! ### C4 -/

theorem vnorm_neg (v : Vec3) : vnorm (fun a => -(v a)) = vnorm v := by
  simp [vnorm]

theorem normalize_neg (v : Vec3) :
    normalize (fun a => -(v a)) = fun a => -(normalize v a) := by
  funext a
  simp [normalize, vnorm_neg, neg_div]

theorem qContrib_neg (u : Vec3) : qContrib (fun a => -(u a)) = qContrib u := by
  funext a b
  rw [qContrib_apply, qContrib_apply]
  ring

theorem qAccum_neg (l : List Vec3) :
    qAccum (l.map (fun v a => -(v a))) = qAccum l := by
  funext a b
  rw [qAccum_apply, qAccum_apply, List.map_map]
  congr 1
  refine List.map_congr_left (fun v _ => ?_)
  show qContrib (normalize (fun a => -(v a))) a b = _
  rw [normalize_neg, qContrib_neg]

theorem compute_Q_frame_neg (vs : List Vec3) (N : ℕ) :
    compute_Q_frame (vs.map (fun v a => -(v a))) N = compute_Q_frame vs N := by
  funext a b
  simp only [compute_Q_frame]
  rw [qAccum_neg]

theorem headD_length_negmap (all : List (List Vec3)) :
    ((all.map (fun vs => vs.map (fun v a => -(v a)))).headD []).length
      = (all.headD []).length := by
  cases all <;> simp

theorem vdot_neg_left (v w : Vec3) : vdot (fun a => -(v a)) w = -(vdot v w) := by
  simp [vdot]
  ring

theorem cos_thetas_neg (l : List Vec3) (d : Vec3) :
    cos_thetas (l.map (fun v a => -(v a))) d
      = (cos_thetas l d).map (fun x => -x) := by
  simp only [cos_thetas, List.map_map]
  exact List.map_congr_left (fun v _ => vdot_neg_left v d)

theorem list_sum_map_neg (xs : List ℝ) : (xs.map (fun x => -x)).sum = -(xs.sum) := by
  induction xs with
  | nil => simp
  | cons x t ih => simp [ih]; ring

theorem npMean_neg (xs : List ℝ) : npMean (xs.map (fun x => -x)) = -(npMean xs) := by
  simp [npMean, list_sum_map_neg, neg_div]

theorem frameOPs_neg (eigh : EighFn) (l : List Vec3) (Q : Mat3) :
    frameOPs eigh (l.map (fun v a => -(v a))) Q
      = (frameOPs eigh l Q).map (fun p => (-p.1, p.2.1, -p.2.2.1, p.2.2.2)) := by
  cases heq : eigh Q with
  | error e => simp [frameOPs, heq, Except.map]
  | ok r =>
    simp only [frameOPs, heq, Except.map]
    rw [cos_thetas_neg]
    refine congrArg Except.ok ?_
    simp only [Prod.mk.injEq]
    refine ⟨npMean_neg _, ?_, ?_, ?_⟩
    · rw [List.map_map]
      exact congrArg npMean
        (List.map_congr_left (fun x _ => by simp [Function.comp]; try ring))
    · have h3 : ((cos_thetas l (selectGlobalDirector r.1 r.2)).map (fun x => -x)).map
            (fun c => (5 * c ^ 3 - 3 * c) / 2)
          = ((cos_thetas l (selectGlobalDirector r.1 r.2)).map
              (fun c => (5 * c ^ 3 - 3 * c) / 2)).map (fun x => -x) := by
        rw [List.map_map, List.map_map]
        exact List.map_congr_left (fun x _ => by simp [Function.comp]; try ring)
      rw [h3, npMean_neg]
    · rw [List.map_map]
      exact congrArg npMean
        (List.map_congr_left (fun x _ => by simp [Function.comp]; try ring))

theorem opLoop_negmap (eigh : EighFn) (l : List (List Vec3 × Mat3)) :
    opLoop eigh (l.map (fun fq => (fq.1.map (fun v a => -(v a)), fq.2)))
      = (opLoop eigh l).map
          (List.map (fun p => (-p.1, p.2.1, -p.2.2.1, p.2.2.2))) := by
  induction l with
  | nil => simp [opLoop, Except.map]
  | cons fq t ih =>
    simp only [List.map_cons, opLoop]
    rw [frameOPs_neg]
    cases h1 : frameOPs eigh fq.1 fq.2 with
    | error e => simp [Except.map]
    | ok p =>
      simp only [Except.map]
      rw [ih]
      cases h2 : opLoop eigh t with
      | error e => simp [Except.map]
      | ok ps => simp [Except.map]

/-- C4: reversing every director (`v_i → −v_i`) in every frame leaves the
Q tensors unchanged (hence also their eigenvalues and — for a fixed
eigensolver — the selected global director), leaves P2 and P4 unchanged,
and negates P1 and P3. -/
theorem C4_direction_reversal (eigh : EighFn) (all : List (List Vec3))
    (Qs : List Mat3) :
    compute_Q_tensor (all.map (fun vs => vs.map (fun v a => -(v a))))
        = compute_Q_tensor all
      ∧ compute_order_parameters eigh
            (all.map (fun vs => vs.map (fun v a => -(v a)))) Qs
          = (compute_order_parameters eigh all Qs).map
              (List.map (fun p => (-p.1, p.2.1, -p.2.2.1, p.2.2.2))) := by
  constructor
  · simp only [compute_Q_tensor, Except.ok.injEq, List.map_map,
      headD_length_negmap]
    exact List.map_congr_left
      (fun vs _ => compute_Q_frame_neg vs (all.headD []).length)
  · rw [compute_order_parameters, compute_order_parameters]
    have hzip : (all.map (fun vs => vs.map (fun v a => -(v a)))).zip Qs
        = (all.zip Qs).map (fun fq => (fq.1.map (fun v a => -(v a)), fq.2)) := by
      rw [List.zip_map_left]
      exact List.map_congr_left (fun p _ => rfl)
    rw [hzip, opLoop_negmap]

/-! ### C5 -/

/-- C5 counterexample: a frame containing the zero-norm director
`(0,0,0)` is processed without any exception — `compute_Q_tensor` returns
`Except.ok`, not a `DegenerateDirectorError` (no such class exists in the
code).  In IEEE arithmetic the 0/0 normalization floods the frame's
tensor with NaN; in the exact model the zero vector normalizes to zero
and the frame's tensor is `diag(-1/2, -1/2, -1/2)`. -/
theorem C5_counterexample :
    compute_Q_tensor [[(fun _ => (0:ℝ))]]
      = Except.ok [fun a b => -(kron a b) / 2] := by
  have hz : normalize (fun _ => (0:ℝ)) = fun _ => 0 := by
    funext a
    simp [normalize]
  refine congrArg Except.ok ?_
  simp only [List.map]
  congr 1
  funext a b
  simp [compute_Q_frame, qAccum, qContrib_apply, hz]

/-- C5 (amended): the code performs no zero-norm check and raises no
error: `compute_Q_tensor` returns `Except.ok` on every well-shaped input,
and a zero-norm director is divided by its zero norm — NaN in IEEE
arithmetic, the zero vector in the exact model — so the degeneracy is
silently masked (the molecule contributes only the `−δ_ab` terms) rather
than reported with frame and molecule indices. -/
theorem C5_silent_masking (all : List (List Vec3)) (v : Vec3)
    (h : vnorm v = 0) :
    (∃ Qs, compute_Q_tensor all = Except.ok Qs)
      ∧ normalize v = (fun _ => 0)
      ∧ qContrib (normalize v) = (fun a b => -(kron a b)) := by
  refine ⟨⟨_, rfl⟩, ?_, ?_⟩
  · funext a
    simp [normalize, h]
  · funext a b
    rw [qContrib_apply]
    simp [normalize, h]

/-- C5 witness: the concrete degenerate input `[[(0,0,0)]]`. -/
theorem C5_witness :
    vnorm (fun _ => (0:ℝ)) = 0
      ∧ ((∃ Qs, compute_Q_tensor [[(fun _ => (0:ℝ))]] = Except.ok Qs)
        ∧ normalize (fun _ => (0:ℝ)) = (fun _ => 0)
        ∧ qContrib (normalize (fun _ => (0:ℝ))) = (fun a b => -(kron a b))) :=
  ⟨by simp [vnorm],
   C5_silent_masking [[(fun _ => 0)]] (fun _ => 0) (by simp [vnorm])⟩

/-! ### C6 -/

/-- C6 counterexample: on a frame with zero molecules `compute_Q_tensor`
returns `Except.ok`, not an `EmptyFrameError` (no such class exists in
the code): the all-zero accumulator is divided by `2·0` — NaN in IEEE
arithmetic, the zero matrix in the exact model. -/
theorem C6_counterexample :
    compute_Q_tensor [([] : List Vec3)] = Except.ok [fun _ _ => (0:ℝ)] := by
  refine congrArg Except.ok ?_
  simp only [List.map]
  congr 1
  funext a b
  simp [compute_Q_frame, qAccum]

/-- C6 (amended): for `N = 0` no error is raised — the division by zero
molecule count yields NaN entries in IEEE arithmetic (the zero matrix in
the exact model) instead of an `EmptyFrameError`; for `N = 1` the call
succeeds and returns the single molecule's full alignment tensor
`(3 u_a u_b − δ_ab) / 2`. -/
theorem C6_empty_and_single (v : Vec3) (hv : 0 < vnorm v) :
    compute_Q_tensor [([] : List Vec3)] = Except.ok [fun _ _ => (0:ℝ)]
      ∧ compute_Q_tensor [[v]]
          = Except.ok
              [fun a b => (3 * normalize v a * normalize v b - kron a b) / 2] := by
  constructor
  · refine congrArg Except.ok ?_
    simp only [List.map]
    congr 1
    funext a b
    simp [compute_Q_frame, qAccum]
  · refine congrArg Except.ok ?_
    simp only [List.map]
    congr 1
    funext a b
    simp [compute_Q_frame, qAccum, qContrib_apply]

/-- C6 witness: the concrete unit director `(0,0,1)`. -/
theorem C6_witness :
    (0:ℝ) < vnorm ![0, 0, 1]
      ∧ (compute_Q_tensor [([] : List Vec3)] = Except.ok [fun _ _ => (0:ℝ)]
        ∧ compute_Q_tensor [[![(0:ℝ), 0, 1]]]
            = Except.ok
                [fun a b => (3 * normalize ![(0:ℝ), 0, 1] a
                    * normalize ![(0:ℝ), 0, 1] b - kron a b) / 2]) :=
  ⟨by simp [vnorm], C6_empty_and_single ![0, 0, 1] (by simp [vnorm])⟩

/-! ### C7 -/

theorem frameOPs_error (eigh : EighFn) (l : List Vec3) (Q : Mat3)
    (e : PipelineError) (h : eigh Q = Except.error e) :
    frameOPs eigh l Q = Except.error e := by
  simp [frameOPs, h, Except.map]

theorem opLoop_error_of_mem (eigh : EighFn) (l : List (List Vec3 × Mat3))
    (h : ∃ p ∈ l, ∃ e, eigh p.2 = Except.error e) :
    ∃ e, opLoop eigh l = Except.error e := by
  induction l with
  | nil =>
    obtain ⟨p, hp, _⟩ := h
    simp at hp
  | cons q t ih =>
    obtain ⟨p, hp, e, he⟩ := h
    rcases List.mem_cons.mp hp with rfl | hpt
    · exact ⟨e, by simp [opLoop, frameOPs_error eigh p.1 p.2 e he]⟩
    · cases h1 : frameOPs eigh q.1 q.2 with
      | error e' => exact ⟨e', by simp [opLoop, h1]⟩
      | ok pr =>
        obtain ⟨e'', he''⟩ := ih ⟨p, hpt, e, he⟩
        exact ⟨e'', by simp [opLoop, h1, he'']⟩

/-- C7 (amended): `compute_order_parameters` contains no per-frame error
handling: if the eigensolver raises on any frame of the batch, the
exception propagates and the whole call aborts with that error — no
frame's order parameters are returned, rather than only the failing
frame being reported. -/
theorem C7_failure_aborts (eigh : EighFn) (all : List (List Vec3))
    (Qs : List Mat3)
    (h : ∃ p ∈ all.zip Qs, ∃ e, eigh p.2 = Except.error e) :
    ∃ e, compute_order_parameters eigh all Qs = Except.error e := by
  rw [compute_order_parameters]
  exact opLoop_error_of_mem eigh _ h

theorem Q_single_z_22 : compute_Q_frame [![(0:ℝ), 0, 1]] 1 2 2 = 1 := by
  simp [compute_Q_frame, qAccum, qContrib_apply, normalize, vnorm, kron]
  norm_num

theorem Q_single_x_22 : compute_Q_frame [![(1:ℝ), 0, 0]] 1 2 2 = -(1/2) := by
  simp [compute_Q_frame, qAccum, qContrib_apply, normalize, vnorm, kron]
  norm_num

theorem eighTop_fail_z :
    eighTop (compute_Q_frame [![(0:ℝ), 0, 1]] 1)
      = Except.error PipelineError.LinAlgError := by
  simp only [eighTop]
  rw [if_pos Q_single_z_22]

theorem eighTop_ok_x :
    eighTop (compute_Q_frame [![(1:ℝ), 0, 0]] 1)
      = Except.ok (![0, 0, 0], idMat) := by
  simp only [eighTop]
  rw [if_neg]
  rw [Q_single_x_22]
  norm_num

theorem frameOPs_x_eval :
    frameOPs eighTop [![(1:ℝ), 0, 0]] (compute_Q_frame [![(1:ℝ), 0, 0]] 1)
      = Except.ok (1, 1, 1, 1) := by
  have hcts : cos_thetas [![(1:ℝ), 0, 0]] ![1, 0, 0] = [1] := by
    simp [cos_thetas, vdot]
  rw [frameOPs, eighTop_ok_x]
  simp only [Except.map]
  rw [selectGlobalDirector_zero_id, hcts]
  simp [npMean]
  norm_num

/-- C7 counterexample: an eigensolver that fails exactly on the first
frame's Q tensor makes the two-frame batch return a bare `LinAlgError`
with no order parameters for the second frame, although the second frame
alone evaluates to `(1,1,1,1)` — processing of the other frames does NOT
continue. -/
theorem C7_counterexample :
    compute_Q_tensor [[![(0:ℝ), 0, 1]], [![(1:ℝ), 0, 0]]]
        = Except.ok [compute_Q_frame [![(0:ℝ), 0, 1]] 1,
            compute_Q_frame [![(1:ℝ), 0, 0]] 1]
      ∧ compute_order_parameters eighTop [[![(0:ℝ), 0, 1]], [![(1:ℝ), 0, 0]]]
            [compute_Q_frame [![(0:ℝ), 0, 1]] 1,
              compute_Q_frame [![(1:ℝ), 0, 0]] 1]
          = Except.error PipelineError.LinAlgError
      ∧ compute_order_parameters eighTop [[![(1:ℝ), 0, 0]]]
            [compute_Q_frame [![(1:ℝ), 0, 0]] 1]
          = Except.ok [(1, 1, 1, 1)] := by
  refine ⟨rfl, ?_, ?_⟩
  · rw [compute_order_parameters]
    have h0 : frameOPs eighTop [![(0:ℝ), 0, 1]]
        (compute_Q_frame [![(0:ℝ), 0, 1]] 1)
        = Except.error PipelineError.LinAlgError :=
      frameOPs_error _ _ _ _ eighTop_fail_z
    simp [List.zip, opLoop, h0]
  · rw [compute_order_parameters]
    simp [List.zip, opLoop, frameOPs_x_eval]

/-- C7 witness: the concrete two-frame batch whose first frame's
eigen-decomposition fails. -/
theorem C7_witness :
    ∃ e, compute_order_parameters eighTop [[![(0:ℝ), 0, 1]], [![(1:ℝ), 0, 0]]]
        [compute_Q_frame [![(0:ℝ), 0, 1]] 1, compute_Q_frame [![(1:ℝ), 0, 0]] 1]
      = Except.error e :=
  C7_failure_aborts eighTop _ _
    ⟨([![(0:ℝ), 0, 1]], compute_Q_frame [![(0:ℝ), 0, 1]] 1),
     by simp [List.zip], PipelineError.LinAlgError, eighTop_fail_z⟩

/-! ### C8 -/

theorem normalize_of_vnorm_one (v : Vec3) (h : vnorm v = 1) : normalize v = v := by
  funext a
  simp [normalize, h]

theorem Q_single_apply (v : Vec3) (h : vnorm v = 1) (a b : Fin 3) :
    compute_Q_frame [v] 1 a b = (3 * v a * v b - kron a b) / 2 := by
  simp [compute_Q_frame, qAccum, qContrib_apply, normalize_of_vnorm_one v h]

theorem npMean_singleton (x : ℝ) : npMean [x] = x := by
  simp [npMean]

theorem eigvec_of_Q_single (v d : Vec3) (hv : vnorm v = 1)
    (hd1 : d 0 ^ 2 + d 1 ^ 2 + d 2 ^ 2 = 1)
    (heig : matVec (compute_Q_frame [v] 1) d = d) :
    (vdot v d = 1 ∨ vdot v d = -1) ∧ (∀ a, d a = vdot v d * v a) := by
  have h0 : d 0 = vdot v d * v 0 := by
    have ha := congrFun heig 0
    simp [matVec, Q_single_apply v hv, kron] at ha
    simp only [vdot]
    linear_combination (-2/3) * ha
  have h1 : d 1 = vdot v d * v 1 := by
    have ha := congrFun heig 1
    simp [matVec, Q_single_apply v hv, kron] at ha
    simp only [vdot]
    linear_combination (-2/3) * ha
  have h2 : d 2 = vdot v d * v 2 := by
    have ha := congrFun heig 2
    simp [matVec, Q_single_apply v hv, kron] at ha
    simp only [vdot]
    linear_combination (-2/3) * ha
  have hcomp : ∀ a, d a = vdot v d * v a := by
    intro a
    fin_cases a
    · exact h0
    · exact h1
    · exact h2
  have hvv : v 0 ^ 2 + v 1 ^ 2 + v 2 ^ 2 = 1 := sumSq_of_vnorm_one v hv
  have hsum : d 0 ^ 2 + d 1 ^ 2 + d 2 ^ 2
      = vdot v d ^ 2 * (v 0 ^ 2 + v 1 ^ 2 + v 2 ^ 2) := by
    rw [h0, h1, h2]
    ring
  have hsq : vdot v d ^ 2 = 1 := by
    rw [hsum, hvv, mul_one] at hd1
    exact hd1
  have hfac : (vdot v d - 1) * (vdot v d + 1) = 0 := by
    linear_combination hsq
  rcases mul_eq_zero.mp hfac with hf | hf
  · exact ⟨Or.inl (by linarith), hcomp⟩
  · exact ⟨Or.inr (by linarith), hcomp⟩

/-- C8 (amended): for a single-molecule frame with a unit director, if
the eigensolver output (after the code's defensive normalization) is a
genuine eigenvector of the frame's Q tensor for the top eigenvalue 1,
then the pipeline yields P2 = P4 = 1 exactly and P1 = P3 = ±1: the sign
of P1 and P3 follows the eigensolver's arbitrary eigenvector sign, so
`P1 = P3 = 1.0` is NOT guaranteed. -/
theorem C8_single_molecule (v : Vec3) (eigh : EighFn) (evals : Fin 3 → ℝ)
    (evecs : Mat3) (p1 p2 p3 p4 : ℝ) (hv : vnorm v = 1)
    (heigh : eigh (compute_Q_frame [v] 1) = Except.ok (evals, evecs))
    (hnz : vnorm (fun a => evecs a (npArgmax3 evals)) ≠ 0)
    (heig : matVec (compute_Q_frame [v] 1) (selectGlobalDirector evals evecs)
        = selectGlobalDirector evals evecs)
    (hres : frameOPs eigh [v] (compute_Q_frame [v] 1)
        = Except.ok (p1, p2, p3, p4)) :
    p2 = 1 ∧ p4 = 1 ∧ ((p1 = 1 ∧ p3 = 1) ∨ (p1 = -1 ∧ p3 = -1)) := by
  have hepos : 0 < vnorm (fun a => evecs a (npArgmax3 evals)) :=
    lt_of_le_of_ne (vnorm_nonneg _) (Ne.symm hnz)
  have hd1 : selectGlobalDirector evals evecs 0 ^ 2
      + selectGlobalDirector evals evecs 1 ^ 2
      + selectGlobalDirector evals evecs 2 ^ 2 = 1 := by
    simp only [selectGlobalDirector]
    exact normalize_normSq _ hepos
  obtain ⟨hc, _⟩ :=
    eigvec_of_Q_single v (selectGlobalDirector evals evecs) hv hd1 heig
  rw [frameOPs, heigh] at hres
  simp only [Except.map, Except.ok.injEq, Prod.mk.injEq] at hres
  obtain ⟨hp1, hp2, hp3, hp4⟩ := hres
  have hcts : cos_thetas [v] (selectGlobalDirector evals evecs)
      = [vdot v (selectGlobalDirector evals evecs)] := by
    simp [cos_thetas]
  rw [hcts] at hp1 hp2 hp3 hp4
  simp only [List.map_cons, List.map_nil, npMean_singleton] at hp1 hp2 hp3 hp4
  rcases hc with h1 | h1 <;> rw [h1] at hp1 hp2 hp3 hp4 <;>
    norm_num at hp1 hp2 hp3 hp4
  · exact ⟨hp2.symm, hp4.symm, Or.inl ⟨hp1.symm, hp3.symm⟩⟩
  · exact ⟨hp2.symm, hp4.symm, Or.inr ⟨hp1.symm, hp3.symm⟩⟩

theorem npArgmax3_diag : npArgmax3 ![-(1/2), -(1/2), (1:ℝ)] = 2 := by
  norm_num [npArgmax3]

theorem selectGlobalDirector_diag :
    selectGlobalDirector ![-(1/2), -(1/2), (1:ℝ)] idMat = ![0, 0, 1] := by
  rw [selectGlobalDirector, npArgmax3_diag]
  funext a
  fin_cases a <;> simp [normalize, idMat, kron, vnorm]

theorem matVec_Qz_top :
    matVec (compute_Q_frame [![(0:ℝ), 0, 1]] 1) ![0, 0, 1] = ![0, 0, 1] := by
  have hv : vnorm ![(0:ℝ), 0, 1] = 1 := by simp [vnorm]
  funext a
  fin_cases a <;> simp [matVec, Q_single_apply _ hv, kron] <;> norm_num

theorem frameOPs_diag_z :
    frameOPs eighDiag [![(0:ℝ), 0, 1]] (compute_Q_frame [![(0:ℝ), 0, 1]] 1)
      = Except.ok (1, 1, 1, 1) := by
  have hcts : cos_thetas [![(0:ℝ), 0, 1]] ![0, 0, 1] = [1] := by
    simp [cos_thetas, vdot]
  simp only [frameOPs, eighDiag, Except.map]
  rw [selectGlobalDirector_diag, hcts]
  simp [npMean]
  norm_num

/-- C8 witness: the unit director `(0,0,1)` with the exact
eigen-decomposition of its Q tensor; here the solver's sign choice agrees
with the director and all four order parameters are 1. -/
theorem C8_witness :
    (1:ℝ) = 1 ∧ (1:ℝ) = 1
      ∧ (((1:ℝ) = 1 ∧ (1:ℝ) = 1) ∨ ((1:ℝ) = -1 ∧ (1:ℝ) = -1)) :=
  C8_single_molecule ![0, 0, 1] eighDiag ![-(1/2), -(1/2), 1] idMat 1 1 1 1
    (by simp [vnorm]) rfl
    (by rw [npArgmax3_diag]
        have : vnorm (fun a => idMat a 2) = 1 := by simp [idMat, kron, vnorm]
        rw [this]
        norm_num)
    (by rw [selectGlobalDirector_diag]; exact matVec_Qz_top)
    frameOPs_diag_z

theorem vnorm_neg_z : vnorm ![(0:ℝ), 0, -1] = 1 := by
  simp [vnorm]

theorem frameOPs_diag_neg_z :
    frameOPs eighDiag [![(0:ℝ), 0, -1]] (compute_Q_frame [![(0:ℝ), 0, -1]] 1)
      = Except.ok (-1, 1, -1, 1) := by
  have hcts : cos_thetas [![(0:ℝ), 0, -1]] ![0, 0, 1] = [-1] := by
    simp [cos_thetas, vdot]
  simp only [frameOPs, eighDiag, Except.map]
  rw [selectGlobalDirector_diag, hcts]
  simp [npMean]
  norm_num

/-- C8 counterexample: the single unit director `(0,0,−1)`.  Its Q tensor
equals that of `(0,0,1)` (Q is even in the director), so the
eigen-decomposition — here the exact one: eigenvalues `(−1/2, −1/2, 1)`
with the standard basis as eigenvectors, the top eigenvector being
`(0,0,1)` — cannot track the director's sign, and the pipeline returns
`P1 = P3 = −1 ≠ 1`, contradicting `P1 = P2 = P3 = P4 = 1.0 exactly`. -/
theorem C8_counterexample :
    vnorm ![(0:ℝ), 0, -1] = 1
      ∧ frameOPs eighDiag [![(0:ℝ), 0, -1]]
            (compute_Q_frame [![(0:ℝ), 0, -1]] 1)
          = Except.ok (-1, 1, -1, 1)
      ∧ matVec (compute_Q_frame [![(0:ℝ), 0, -1]] 1) ![0, 0, 1] = ![0, 0, 1]
      ∧ matVec (compute_Q_frame [![(0:ℝ), 0, -1]] 1) ![1, 0, 0]
          = ![-(1/2), 0, 0]
      ∧ matVec (compute_Q_frame [![(0:ℝ), 0, -1]] 1) ![0, 1, 0]
          = ![0, -(1/2), 0]
      ∧ (-1:ℝ) ≠ 1 := by
  refine ⟨vnorm_neg_z, frameOPs_diag_neg_z, ?_, ?_, ?_, by norm_num⟩
  · funext a
    fin_cases a <;> simp [matVec, Q_single_apply _ vnorm_neg_z, kron] <;> norm_num
  · funext a
    fin_cases a <;> simp [matVec, Q_single_apply _ vnorm_neg_z, kron] <;> norm_num
  · funext a
    fin_cases a <;> simp [matVec, Q_single_apply _ vnorm_neg_z, kron] <;> norm_num

/-! ### C9 -/

theorem vnorm_smul (v : Vec3) (c : ℝ) (hc : 0 ≤ c) :
    vnorm (fun a => c * v a) = c * vnorm v := by
  simp only [vnorm]
  rw [show (c * v 0) ^ 2 + (c * v 1) ^ 2 + (c * v 2) ^ 2
      = c ^ 2 * (v 0 ^ 2 + v 1 ^ 2 + v 2 ^ 2) by ring]
  rw [Real.sqrt_mul (sq_nonneg c), Real.sqrt_sq hc]

theorem normalize_smul (v : Vec3) (c : ℝ) (hc : 0 < c) :
    normalize (fun a => c * v a) = normalize v := by
  funext a
  simp only [normalize, vnorm_smul v c hc.le]
  exact mul_div_mul_left (v a) (vnorm v) (ne_of_gt hc)

theorem qAccum_smul (l : List Vec3) (c : ℝ) (hc : 0 < c) :
    qAccum (l.map (fun v a => c * v a)) = qAccum l := by
  funext a b
  rw [qAccum_apply, qAccum_apply, List.map_map]
  congr 1
  refine List.map_congr_left (fun v _ => ?_)
  show qContrib (normalize (fun a => c * v a)) a b = _
  rw [normalize_smul v c hc]

theorem compute_Q_frame_smul (l : List Vec3) (N : ℕ) (c : ℝ) (hc : 0 < c) :
    compute_Q_frame (l.map (fun v a => c * v a)) N = compute_Q_frame l N := by
  funext a b
  simp only [compute_Q_frame]
  rw [qAccum_smul l c hc]

theorem vdot_smul_left (v w : Vec3) (c : ℝ) :
    vdot (fun a => c * v a) w = c * vdot v w := by
  simp only [vdot]
  ring

theorem cos_thetas_smul (l : List Vec3) (d : Vec3) (c : ℝ) :
    cos_thetas (l.map (fun v a => c * v a)) d
      = (cos_thetas l d).map (fun x => c * x) := by
  simp only [cos_thetas, List.map_map]
  exact List.map_congr_left (fun v _ => vdot_smul_left v d c)

theorem list_sum_map_mul (xs : List ℝ) (c : ℝ) :
    (xs.map (fun x => c * x)).sum = c * xs.sum := by
  induction xs with
  | nil => simp
  | cons x t ih => simp [ih]; ring

theorem npMean_smul (xs : List ℝ) (c : ℝ) :
    npMean (xs.map (fun x => c * x)) = c * npMean xs := by
  simp [npMean, list_sum_map_mul, mul_div_assoc]

/-- C9: `compute_order_parameters` dots the RAW input directors with the
global director without re-normalizing them (OP.py line 54), while
`compute_Q_tensor` normalizes internally; hence scaling every director by
`c > 0` leaves the frame's Q tensor unchanged (so the eigensolver input,
and with it the selected global director, is unchanged), multiplies every
`cos θ_i` by `c`, and multiplies P1 by `c` — the stated bounds on the
order parameters are therefore only guaranteed for unit-director input. -/
theorem C9_scaling (eigh : EighFn) (directors : List Vec3) (Q : Mat3)
    (d : Vec3) (c : ℝ) (p1 p2 p3 p4 : ℝ) (hc : 0 < c)
    (hres : frameOPs eigh directors Q = Except.ok (p1, p2, p3, p4)) :
    compute_Q_frame (directors.map (fun v a => c * v a)) directors.length
        = compute_Q_frame directors directors.length
      ∧ cos_thetas (directors.map (fun v a => c * v a)) d
          = (cos_thetas directors d).map (fun x => c * x)
      ∧ ∃ q2 q3 q4, frameOPs eigh (directors.map (fun v a => c * v a)) Q
          = Except.ok (c * p1, q2, q3, q4) := by
  refine ⟨compute_Q_frame_smul directors directors.length c hc,
    cos_thetas_smul directors d c, ?_⟩
  cases heq : eigh Q with
  | error e =>
    rw [frameOPs, heq] at hres
    simp [Except.map] at hres
  | ok r =>
    rw [frameOPs, heq] at hres
    simp only [Except.map, Except.ok.injEq, Prod.mk.injEq] at hres
    obtain ⟨hp1, _, _, _⟩ := hres
    rw [frameOPs, heq]
    simp only [Except.map]
    rw [cos_thetas_smul, npMean_smul, hp1]
    exact ⟨_, _, _, rfl⟩

/-- C9 witness: scaling the single unit director `(0,0,1)` by `c = 2`. -/
theorem C9_witness :
    (0:ℝ) < 2
      ∧ (compute_Q_frame ([![(0:ℝ), 0, 1]].map (fun v a => 2 * v a))
              ([![(0:ℝ), 0, 1]] : List Vec3).length
            = compute_Q_frame [![(0:ℝ), 0, 1]]
                ([![(0:ℝ), 0, 1]] : List Vec3).length
          ∧ cos_thetas ([![(0:ℝ), 0, 1]].map (fun v a => 2 * v a)) ![1, 0, 0]
              = (cos_thetas [![(0:ℝ), 0, 1]] ![1, 0, 0]).map (fun x => 2 * x)
          ∧ ∃ q2 q3 q4,
              frameOPs eighId ([![(0:ℝ), 0, 1]].map (fun v a => 2 * v a)) zeroMat
                = Except.ok (2 * 0, q2, q3, q4)) :=
  ⟨by norm_num,
   C9_scaling eighId [![0, 0, 1]] zeroMat ![1, 0, 0] 2 0 (-(1/2)) 0 (3/8)
     (by norm_num) frameOPs_eighId_eval⟩

/-! ### C10 -/

theorem fin3_cases (j : Fin 3) : j = 0 ∨ j = 1 ∨ j = 2 := by
  fin_cases j
  · exact Or.inl rfl
  · exact Or.inr (Or.inl rfl)
  · exact Or.inr (Or.inr rfl)

/-- C10: the global-director selection of `compute_order_parameters` is
`np.argmax` followed by column extraction: the embedded `npArgmax3`
returns an index attaining the maximum eigenvalue, and whenever another
index `j` also attains (at least) that value the selected index is the
lower one — the first occurrence of the maximum — so repeated runs on
identical input select the same eigenvector column. -/
theorem C10_lowest_index (evals : Fin 3 → ℝ) (evecs : Mat3) (j : Fin 3)
    (hj : evals (npArgmax3 evals) ≤ evals j) :
    (∀ k, evals k ≤ evals (npArgmax3 evals))
      ∧ npArgmax3 evals ≤ j
      ∧ selectGlobalDirector evals evecs
          = normalize (fun a => evecs a (npArgmax3 evals)) := by
  have hmax : ∀ k, evals k ≤ evals (npArgmax3 evals) := by
    intro k
    rcases fin3_cases k with rfl | rfl | rfl <;>
      (unfold npArgmax3; split_ifs with h1 h2 <;> linarith)
  have hleast : npArgmax3 evals ≤ j := by
    rcases fin3_cases j with rfl | rfl | rfl <;>
      (unfold npArgmax3 at hj ⊢; split_ifs at hj ⊢ with h1 h2 <;>
        first
        | decide
        | linarith)
  exact ⟨hmax, hleast, rfl⟩

/-- C10 witness: the tied eigenvalue array `(1, 1, 0)` — the maximum is
attained at indices 0 and 1 and the selection is index 0, the lowest. -/
theorem C10_witness :
    (∀ k, (![(1:ℝ), 1, 0] : Fin 3 → ℝ) k
        ≤ ![(1:ℝ), 1, 0] (npArgmax3 ![(1:ℝ), 1, 0]))
      ∧ npArgmax3 ![(1:ℝ), 1, 0] ≤ 1
      ∧ selectGlobalDirector ![(1:ℝ), 1, 0] idMat
          = normalize (fun a => idMat a (npArgmax3 ![(1:ℝ), 1, 0])) :=
  C10_lowest_index ![1, 1, 0] idMat 1 (by norm_num [npArgmax3])

end OP

end
